import Mathlib

/-!
Verification of the deduplication + classification core of the Web-scraper
repository, as a shallow embedding in Lean 4.

Python strings are modelled as `List Char` (one entry per code point, which
matches Python's `str` indexing and slicing).  ASCII-only case mapping is used
for `str.lower()` (`lowChar`), Python's full whitespace set (CPython's
`Py_UNICODE_ISSPACE`, which underlies both `str.strip()` and `\s`) models
whitespace, and `string.punctuation` is the usual 32 ASCII punctuation
characters.  SHA-256 is embedded concretely (FIPS 180-4) over
byte lists, with machine words as `Nat` reduced `% 2^32`.
-/

namespace JobScraper

/-- Shorthand: a Python string as a list of code points. -/
abbrev Str := List Char

/-- Convert a Lean string literal to the `List Char` model. -/
def str (s : String) : Str := s.data

/- ------------------------------------------------------------------ -/
/- Character classes used by `_normalize` (deduplicator.py)            -/
/- ------------------------------------------------------------------ -/

/-- The code points Python treats as whitespace (CPython's
`Py_UNICODE_ISSPACE`), the one predicate behind both `str.strip()` and the
regex class backslash-s on `str` patterns: TAB through CR, FS through US,
SPACE, NEL (U+0085), NO-BREAK SPACE (U+00A0), OGHAM SPACE MARK (U+1680),
EN QUAD through HAIR SPACE (U+2000-U+200A), LINE SEPARATOR, PARAGRAPH
SEPARATOR, NARROW NO-BREAK SPACE (U+202F), MEDIUM MATHEMATICAL SPACE
(U+205F), and IDEOGRAPHIC SPACE (U+3000). -/
def isWsChar (c : Char) : Bool :=
  decide ((9 ≤ c.toNat ∧ c.toNat ≤ 13) ∨ (28 ≤ c.toNat ∧ c.toNat ≤ 32) ∨
    c.toNat = 133 ∨ c.toNat = 160 ∨ c.toNat = 5760 ∨
    (8192 ≤ c.toNat ∧ c.toNat ≤ 8202) ∨ c.toNat = 8232 ∨ c.toNat = 8233 ∨
    c.toNat = 8239 ∨ c.toNat = 8287 ∨ c.toNat = 12288)

/-- Python `string.punctuation`: the 32 ASCII punctuation characters,
given by their four contiguous code ranges. -/
def isPunctChar (c : Char) : Bool :=
  decide ((33 ≤ c.toNat ∧ c.toNat ≤ 47) ∨ (58 ≤ c.toNat ∧ c.toNat ≤ 64) ∨
    (91 ≤ c.toNat ∧ c.toNat ≤ 96) ∨ (123 ≤ c.toNat ∧ c.toNat ≤ 126))

/-- ASCII lowercase of one character (Python `str.lower()`, ASCII part). -/
def lowChar (c : Char) : Char :=
  if 65 ≤ c.toNat ∧ c.toNat ≤ 90 then Char.ofNat (c.toNat + 32) else c

/-- `s.lower()` on the ASCII model. -/
def lowerStr (s : Str) : Str := s.map lowChar

/- ------------------------------------------------------------------ -/
/- `_normalize` (deduplicator.py lines 19-24)                          -/
/- ------------------------------------------------------------------ -/

/-- Drop leading whitespace (left half of `str.strip()`). -/
def stripL (s : Str) : Str := s.dropWhile (fun c => isWsChar c)

/-- Drop trailing whitespace (right half of `str.strip()`); dropping
trailing whitespace is dropping leading whitespace of the reversal. -/
def stripR (s : Str) : Str := (stripL s.reverse).reverse

/-- Python `str.strip()`: drop leading and trailing whitespace. -/
def pstrip (s : Str) : Str := stripR (stripL s)

/-- `text.translate(str.maketrans("", "", string.punctuation))`:
remove every punctuation character. -/
def removePunct (s : Str) : Str := s.filter (fun c => !(isPunctChar c))

/-- Worker for whitespace collapsing; the flag records whether the previous
character was part of a whitespace run already replaced by one space. -/
def collapseGo : Bool → Str → Str
  | _, [] => []
  | inWs, c :: cs =>
    if isWsChar c then
      (if inWs then collapseGo true cs else ' ' :: collapseGo true cs)
    else c :: collapseGo false cs

/-- `re.sub(r"\s+", " ", text)`: replace every maximal whitespace run
(leading and trailing runs included) by a single space. -/
def collapseWs (s : Str) : Str := collapseGo false s

/-- `_normalize`: lowercase, strip, remove punctuation, collapse whitespace,
in exactly the source's order. -/
def normalize (s : Str) : Str := collapseWs (removePunct (pstrip (lowerStr s)))

/- ------------------------------------------------------------------ -/
/- Word decomposition, used to state whitespace-insensitivity          -/
/- ------------------------------------------------------------------ -/

/-- Worker for `fields`: `acc` holds the current word, reversed. -/
def fieldsGo : Str → Str → List Str
  | acc, [] => if acc.isEmpty then [] else [acc.reverse]
  | acc, c :: cs =>
    if isWsChar c then
      (if acc.isEmpty then fieldsGo [] cs else acc.reverse :: fieldsGo [] cs)
    else fieldsGo (c :: acc) cs

/-- The maximal whitespace-free runs ("words") of a string, in order. -/
def fields (s : Str) : List Str := fieldsGo [] s

/-- Join words with single spaces (no leading or trailing space). -/
def joinSp : List Str → Str
  | [] => []
  | [w] => w
  | w :: ws => w ++ ' ' :: joinSp ws

/- ------------------------------------------------------------------ -/
/- SHA-256 (FIPS 180-4), as called by `hashlib.sha256(...).hexdigest()` -/
/- ------------------------------------------------------------------ -/

/-- Truncate to a 32-bit machine word. -/
def w32 (n : Nat) : Nat := n % 4294967296

/-- 32-bit rotate right. -/
def rotr (n x : Nat) : Nat := Nat.lor (x >>> n) (w32 (x <<< (32 - n)))

/-- 32-bit bitwise complement. -/
def bnot32 (x : Nat) : Nat := Nat.xor x 4294967295

def bsig0 (x : Nat) : Nat := Nat.xor (rotr 2 x) (Nat.xor (rotr 13 x) (rotr 22 x))
def bsig1 (x : Nat) : Nat := Nat.xor (rotr 6 x) (Nat.xor (rotr 11 x) (rotr 25 x))
def ssig0 (x : Nat) : Nat := Nat.xor (rotr 7 x) (Nat.xor (rotr 18 x) (x >>> 3))
def ssig1 (x : Nat) : Nat := Nat.xor (rotr 17 x) (Nat.xor (rotr 19 x) (x >>> 10))
def chF (x y z : Nat) : Nat := Nat.xor (Nat.land x y) (Nat.land (bnot32 x) z)
def majF (x y z : Nat) : Nat :=
  Nat.xor (Nat.land x y) (Nat.xor (Nat.land x z) (Nat.land y z))

/-- The 64 SHA-256 round constants. -/
def K256 : List Nat :=
  [1116352408, 1899447441, 3049323471, 3921009573,
   961987163, 1508970993, 2453635748, 2870763221,
   3624381080, 310598401, 607225278, 1426881987,
   1925078388, 2162078206, 2614888103, 3248222580,
   3835390401, 4022224774, 264347078, 604807628,
   770255983, 1249150122, 1555081692, 1996064986,
   2554220882, 2821834349, 2952996808, 3210313671,
   3336571891, 3584528711, 113926993, 338241895,
   666307205, 773529912, 1294757372, 1396182291,
   1695183700, 1986661051, 2177026350, 2456956037,
   2730485921, 2820302411, 3259730800, 3345764771,
   3516065817, 3600352804, 4094571909, 275423344,
   430227734, 506948616, 659060556, 883997877,
   958139571, 1322822218, 1537002063, 1747873779,
   1955562222, 2024104815, 2227730452, 2361852424,
   2428436474, 2756734187, 3204031479, 3329325298]

/-- The eight 32-bit words of a SHA-256 state. -/
structure H8 where
  a : Nat
  b : Nat
  c : Nat
  d : Nat
  e : Nat
  f : Nat
  g : Nat
  h : Nat

/-- The SHA-256 initial hash value. -/
def initH : H8 :=
  ⟨1779033703, 3144134277, 1013904242, 2773480762,
   1359893119, 2600822924, 528734635, 1541459225⟩

/-- Extend a message-schedule word list by `fuel` further words. -/
def schedGo : Nat → List Nat → List Nat
  | 0, ws => ws
  | n + 1, ws =>
    schedGo n (ws ++ [w32 (ssig1 (ws.getD (ws.length - 2) 0) +
                           ws.getD (ws.length - 7) 0 +
                           ssig0 (ws.getD (ws.length - 15) 0) +
                           ws.getD (ws.length - 16) 0)])

/-- The 64-word message schedule of one 16-word block. -/
def schedule (block : List Nat) : List Nat := schedGo 48 block

/-- One SHA-256 compression round, fed one (round constant, schedule word). -/
def round256 (st : H8) (kw : Nat × Nat) : H8 :=
  let t1 := w32 (st.h + bsig1 st.e + chF st.e st.f st.g + kw.1 + kw.2)
  let t2 := w32 (bsig0 st.a + majF st.a st.b st.c)
  ⟨w32 (t1 + t2), st.a, st.b, st.c, w32 (st.d + t1), st.e, st.f, st.g⟩

/-- Process one 16-word block: 64 rounds, then add to the incoming state. -/
def compress (st : H8) (block : List Nat) : H8 :=
  let fin := (K256.zip (schedule block)).foldl round256 st
  ⟨w32 (st.a + fin.a), w32 (st.b + fin.b), w32 (st.c + fin.c),
   w32 (st.d + fin.d), w32 (st.e + fin.e), w32 (st.f + fin.f),
   w32 (st.g + fin.g), w32 (st.h + fin.h)⟩

/-- Big-endian 8-byte encoding of a (64-bit) length. -/
def beBytes8 (n : Nat) : List Nat :=
  (List.range 8).map (fun i => (n >>> ((7 - i) * 8)) % 256)

/-- SHA-256 padding: append 0x80, zeros to 56 mod 64, then the bit length. -/
def padBytes (msg : List Nat) : List Nat :=
  msg ++ [128] ++ List.replicate ((64 + 55 - msg.length % 64) % 64) 0 ++
    beBytes8 (8 * msg.length)

/-- Group bytes into big-endian 32-bit words. -/
def bytesToWords : List Nat → List Nat
  | b0 :: b1 :: b2 :: b3 :: rest =>
    (b0 * 16777216 + b1 * 65536 + b2 * 256 + b3) :: bytesToWords rest
  | _ => []

/-- Split a word list into 16-word blocks (`fuel` bounds the recursion). -/
def chunk16 : Nat → List Nat → List (List Nat)
  | 0, _ => []
  | _, [] => []
  | n + 1, ws => ws.take 16 :: chunk16 n (ws.drop 16)

/-- SHA-256 of a byte list, as the final eight-word state. -/
def sha256Bytes (msg : List Nat) : H8 :=
  let ws := bytesToWords (padBytes msg)
  (chunk16 ws.length ws).foldl compress initH

/-- The sixteen lowercase hexadecimal digits. -/
def hexChars : List Char :=
  (List.range 10).map (fun i => Char.ofNat (48 + i)) ++
    (List.range 6).map (fun i => Char.ofNat (97 + i))

/-- One hexadecimal digit character. -/
def hexDigit (n : Nat) : Char := hexChars.getD n '0'

/-- A 32-bit word as 8 lowercase hex characters, most significant first. -/
def wordHex (n : Nat) : Str :=
  (List.range 8).map (fun i => hexDigit ((n >>> ((7 - i) * 4)) % 16))

/-- `.hexdigest()`: the digest as 64 lowercase hex characters. -/
def digestHex (st : H8) : Str :=
  wordHex st.a ++ wordHex st.b ++ wordHex st.c ++ wordHex st.d ++
  wordHex st.e ++ wordHex st.f ++ wordHex st.g ++ wordHex st.h

/-- UTF-8 encoding of one code point (`str.encode("utf-8")`, per char). -/
def utf8Char (c : Char) : List Nat :=
  let n := c.toNat
  if n < 128 then [n]
  else if n < 2048 then [192 + n / 64, 128 + n % 64]
  else if n < 65536 then [224 + n / 4096, 128 + (n / 64) % 64, 128 + n % 64]
  else [240 + n / 262144, 128 + (n / 4096) % 64,
        128 + (n / 64) % 64, 128 + n % 64]

/-- `combined.encode("utf-8")`. -/
def encodeUtf8 (s : Str) : List Nat := (s.map utf8Char).flatten

/-- `compute_content_hash` (deduplicator.py lines 27-34): SHA-256 hex digest
of normalized `title + company + description[:500]`. -/
def compute_content_hash (title company description : Str) : Str :=
  let combined :=
    normalize title ++ normalize company ++ normalize (description.take 500)
  digestHex (sha256Bytes (encodeUtf8 combined))

/- ------------------------------------------------------------------ -/
/- Character-level lemmas                                              -/
/- ------------------------------------------------------------------ -/

theorem charOfNat_toNat {n : Nat} (h : n < 55296) : (Char.ofNat n).toNat = n := by
  simp [Char.ofNat, Nat.isValidChar, h, Char.ofNatAux, Char.toNat,
    UInt32.toNat, UInt32.ofNatCore, BitVec.toNat_ofNatLt]

theorem isWsChar_lowChar (c : Char) : isWsChar (lowChar c) = isWsChar c := by
  unfold lowChar
  split
  · rename_i hc
    have h32 : (Char.ofNat (c.toNat + 32)).toNat = c.toNat + 32 :=
      charOfNat_toNat (by omega)
    simp only [isWsChar, h32, decide_eq_decide]
    omega
  · rfl

theorem isPunctChar_lowChar (c : Char) : isPunctChar (lowChar c) = isPunctChar c := by
  unfold lowChar
  split
  · rename_i hc
    have h32 : (Char.ofNat (c.toNat + 32)).toNat = c.toNat + 32 :=
      charOfNat_toNat (by omega)
    simp only [isPunctChar, h32, decide_eq_decide]
    omega
  · rfl

theorem lowChar_of_punct {c : Char} (h : isPunctChar c = true) : lowChar c = c := by
  simp only [isPunctChar, decide_eq_true_eq] at h
  unfold lowChar
  rw [if_neg]
  omega

theorem not_ws_of_punct {c : Char} (h : isPunctChar c = true) :
    isWsChar c = false := by
  simp only [isPunctChar, decide_eq_true_eq] at h
  simp only [isWsChar, decide_eq_false_iff_not]
  omega

theorem not_punct_of_ws {c : Char} (h : isWsChar c = true) :
    isPunctChar c = false := by
  simp only [isWsChar, decide_eq_true_eq] at h
  simp only [isPunctChar, decide_eq_false_iff_not]
  omega

/- ------------------------------------------------------------------ -/
/- Strip lemmas                                                        -/
/- ------------------------------------------------------------------ -/

theorem stripL_cons_ws {c : Char} (h : isWsChar c = true) (s : Str) :
    stripL (c :: s) = stripL s := by
  simp [stripL, List.dropWhile_cons, h]

theorem stripL_cons_nws {c : Char} (h : isWsChar c = false) (s : Str) :
    stripL (c :: s) = c :: s := by
  simp [stripL, List.dropWhile_cons, h]

theorem stripL_eq_self {s : Str}
    (h : ∀ c, s.head? = some c → isWsChar c = false) : stripL s = s := by
  cases s with
  | nil => rfl
  | cons c cs => exact stripL_cons_nws (h c rfl) cs

theorem stripR_eq_self {s : Str}
    (h : ∀ c, s.reverse.head? = some c → isWsChar c = false) : stripR s = s := by
  unfold stripR
  rw [stripL_eq_self h, List.reverse_reverse]

theorem stripL_length_le (s : Str) : (stripL s).length ≤ s.length :=
  s.dropWhile_sublist _ |>.length_le

theorem stripL_wsLead {g : Str} (hg : ∀ c ∈ g, isWsChar c = true) (t : Str) :
    stripL (g ++ t) = stripL t := by
  induction g with
  | nil => rfl
  | cons c cs ih =>
    rw [List.cons_append, stripL_cons_ws (hg c (by simp))]
    exact ih (fun x hx => hg x (by simp [hx]))

theorem stripL_head_not_ws {s : Str} :
    ∀ c, (stripL s).head? = some c → isWsChar c = false := by
  induction s with
  | nil => intro c h; simp [stripL] at h
  | cons d ds ih =>
    intro c h
    by_cases hw : isWsChar d = true
    · exact ih c (by rwa [stripL_cons_ws hw] at h)
    · rw [stripL_cons_nws (by simpa using hw)] at h
      simp only [List.head?_cons, Option.some.injEq] at h
      subst h
      simpa using hw

/- ------------------------------------------------------------------ -/
/- Fields lemmas                                                       -/
/- ------------------------------------------------------------------ -/

theorem fields_cons_ws {c : Char} (h : isWsChar c = true) (s : Str) :
    fields (c :: s) = fields s := by
  simp [fields, fieldsGo, h]

theorem fields_wsLead {g : Str} (hg : ∀ c ∈ g, isWsChar c = true) (t : Str) :
    fields (g ++ t) = fields t := by
  induction g with
  | nil => rfl
  | cons c cs ih =>
    rw [List.cons_append, fields_cons_ws (hg c (by simp))]
    exact ih (fun x hx => hg x (by simp [hx]))

theorem fields_all_ws {s : Str} (hg : ∀ c ∈ s, isWsChar c = true) :
    fields s = [] := by
  have := fields_wsLead hg ([] : Str)
  simpa using this

theorem fieldsGo_acc (s : Str) : ∀ acc : Str, acc ≠ [] →
    fieldsGo acc s =
      (acc.reverse ++ s.takeWhile (fun c => !isWsChar c)) ::
        fields (s.dropWhile (fun c => !isWsChar c)) := by
  induction s with
  | nil =>
    intro acc h
    simp [fieldsGo, fields, h]
  | cons c cs ih =>
    intro acc h
    by_cases hw : isWsChar c = true
    · have hne : acc.isEmpty = false := by simpa [List.isEmpty_iff] using h
      simp only [fieldsGo, hw, if_true, hne, Bool.false_eq_true, if_false]
      rw [List.takeWhile_cons, List.dropWhile_cons]
      simp only [hw, Bool.not_true, Bool.false_eq_true, if_false]
      rw [fields_cons_ws hw]
      simp [fields]
    · have hw' : isWsChar c = false := by simpa using hw
      simp only [fieldsGo, hw', Bool.false_eq_true, if_false]
      rw [ih (c :: acc) (by simp)]
      rw [List.takeWhile_cons, List.dropWhile_cons]
      simp [hw']

theorem fields_cons_nws {c : Char} (h : isWsChar c = false) (s : Str) :
    fields (c :: s) =
      (c :: s.takeWhile (fun x => !isWsChar x)) ::
        fields (s.dropWhile (fun x => !isWsChar x)) := by
  have : fields (c :: s) = fieldsGo [c] s := by
    simp [fields, fieldsGo, h]
  rw [this, fieldsGo_acc s [c] (by simp)]
  rfl

theorem fields_stripL (s : Str) : fields (stripL s) = fields s := by
  conv_rhs => rw [← List.takeWhile_append_dropWhile (p := fun c => isWsChar c) (l := s)]
  rw [fields_wsLead (fun c hc => List.mem_takeWhile_imp hc)]
  rfl

/- ------------------------------------------------------------------ -/
/- Collapse and removePunct lemmas                                     -/
/- ------------------------------------------------------------------ -/

/-- The whitespace flag `collapseGo` carries after consuming `s` from `b`. -/
def stateAfter (b : Bool) (s : Str) : Bool := s.foldl (fun _ c => isWsChar c) b

theorem head?_mem {α : Type} {l : List α} {c : α} (h : l.head? = some c) :
    c ∈ l := by
  cases l <;> simp_all

theorem collapseGo_append (s t : Str) : ∀ b,
    collapseGo b (s ++ t) = collapseGo b s ++ collapseGo (stateAfter b s) t := by
  induction s with
  | nil => intro b; rfl
  | cons c cs ih =>
    intro b
    have hst : stateAfter b (c :: cs) = stateAfter (isWsChar c) cs := rfl
    by_cases hw : isWsChar c = true
    · cases b with
      | false =>
        simp only [List.cons_append, collapseGo, hw, if_true, Bool.false_eq_true,
          if_false, hst, List.append_eq]
        rw [ih true]
      | true =>
        simp only [List.cons_append, collapseGo, hw, if_true, hst, List.append_eq]
        rw [ih true]
    · have hw' : isWsChar c = false := by simpa using hw
      simp only [List.cons_append, collapseGo, hw', Bool.false_eq_true, if_false,
        hst, List.append_eq]
      rw [ih false]

theorem collapseGo_ws_swallow {g : Str} (hg : ∀ c ∈ g, isWsChar c = true)
    (t : Str) : collapseGo true (g ++ t) = collapseGo true t := by
  induction g with
  | nil => rfl
  | cons c cs ih =>
    have hc := hg c (by simp)
    simp only [List.cons_append, collapseGo, hc, if_true, List.append_eq]
    exact ih (fun x hx => hg x (by simp [hx]))

theorem collapseGo_wsRun {g : Str} (hne : g ≠ [])
    (hg : ∀ c ∈ g, isWsChar c = true) (b : Bool) (t : Str) :
    collapseGo b (g ++ t) = collapseGo b (' ' :: t) := by
  cases g with
  | nil => exact absurd rfl hne
  | cons c cs =>
    have hc := hg c (by simp)
    have hcs : ∀ x ∈ cs, isWsChar x = true := fun x hx => hg x (by simp [hx])
    have hsp : isWsChar ' ' = true := by decide
    cases b with
    | false =>
      simp only [List.cons_append, collapseGo, hc, hsp, if_true,
        Bool.false_eq_true, if_false, List.append_eq]
      rw [collapseGo_ws_swallow hcs]
    | true =>
      simp only [List.cons_append, collapseGo, hc, hsp, if_true, List.append_eq]
      rw [collapseGo_ws_swallow hcs]

theorem removePunct_append (s t : Str) :
    removePunct (s ++ t) = removePunct s ++ removePunct t := by
  simp [removePunct, List.filter_append]

theorem removePunct_ws {g : Str} (hg : ∀ c ∈ g, isWsChar c = true) :
    removePunct g = g := by
  rw [removePunct, List.filter_eq_self]
  intro c hc
  simp [not_punct_of_ws (hg c hc)]

theorem removePunct_cons_ws {c : Char} (h : isWsChar c = true) (s : Str) :
    removePunct (c :: s) = c :: removePunct s := by
  simp [removePunct, List.filter_cons, not_punct_of_ws h]

/- ------------------------------------------------------------------ -/
/- The canonical word form of `_normalize`                             -/
/- ------------------------------------------------------------------ -/

theorem stripR_ne_nil {v : Str} (hv : v ≠ [])
    (hhead : ∀ c, v.head? = some c → isWsChar c = false) : stripR v ≠ [] := by
  intro h
  have h' : stripL v.reverse = [] := by
    have := congrArg List.reverse h
    simpa [stripR] using this
  rw [stripL, List.dropWhile_eq_nil_iff] at h'
  cases v with
  | nil => exact hv rfl
  | cons c cs =>
    have := h' c (by simp)
    rw [hhead c rfl] at this
    simp at this

theorem stripR_append {A B : Str} (h : stripR B ≠ []) :
    stripR (A ++ B) = A ++ stripR B := by
  have hB : stripL B.reverse ≠ [] := by
    intro hnil
    exact h (by simp [stripR, hnil])
  unfold stripR stripL
  rw [List.reverse_append, List.dropWhile_append]
  have : ¬(B.reverse.dropWhile (fun c => isWsChar c)).isEmpty := by
    simpa [List.isEmpty_iff, stripL] using hB
  simp only [this, Bool.false_eq_true, if_false]
  rw [List.reverse_append, List.reverse_reverse]

theorem stripR_word {w : Str} (hw : ∀ c ∈ w, isWsChar c = false) :
    stripR w = w := by
  apply stripR_eq_self
  intro c hc
  exact hw c (by simpa using head?_mem hc)

theorem joinSp_cons {w : Str} {ws : List Str} (h : ws ≠ []) :
    joinSp (w :: ws) = w ++ ' ' :: joinSp ws := by
  cases ws with
  | nil => exact absurd rfl h
  | cons x xs => rfl

theorem dropWhile_head_false {α : Type} (q : α → Bool) (s : List α) :
    ∀ c, (s.dropWhile q).head? = some c → q c = false := by
  induction s with
  | nil => intro c h; simp at h
  | cons d ds ih =>
    intro c h
    by_cases hq : q d = true
    · exact ih c (by rwa [List.dropWhile_cons_of_pos hq] at h)
    · rw [List.dropWhile_cons_of_neg hq] at h
      simp only [List.head?_cons, Option.some.injEq] at h
      subst h
      simpa using hq

theorem canonGo : ∀ n : Nat, ∀ v : Str, v.length ≤ n →
    (∀ c, v.head? = some c → isWsChar c = false) → ∀ b : Bool,
    collapseGo b (removePunct (stripR v)) =
      collapseGo b (removePunct (joinSp (fields v))) := by
  intro n
  induction n with
  | zero =>
    intro v hv _ b
    have : v = [] := by
      cases v with
      | nil => rfl
      | cons c cs => simp at hv
    subst this
    rfl
  | succ n ih =>
    intro v hv hhead b
    cases v with
    | nil => rfl
    | cons c cs =>
      have hc : isWsChar c = false := hhead c rfl
      have hcs : cs = cs.takeWhile (fun x => !isWsChar x) ++
          cs.dropWhile (fun x => !isWsChar x) :=
        (List.takeWhile_append_dropWhile _ _).symm
      have hword : ∀ x ∈ c :: cs.takeWhile (fun x => !isWsChar x),
          isWsChar x = false := by
        intro x hx
        rcases List.mem_cons.mp hx with h | h
        · subst h; exact hc
        · simpa using List.mem_takeWhile_imp h
      have hfv : fields (c :: cs) =
          (c :: cs.takeWhile (fun x => !isWsChar x)) ::
            fields (cs.dropWhile (fun x => !isWsChar x)) :=
        fields_cons_nws hc cs
      by_cases hrest : ∀ x ∈ cs.dropWhile (fun x => !isWsChar x), isWsChar x = true
      · -- everything after the first word is whitespace
        have h1 : stripR (c :: cs) = c :: cs.takeWhile (fun x => !isWsChar x) := by
          conv_lhs => rw [show c :: cs =
            (c :: cs.takeWhile (fun x => !isWsChar x)) ++
              cs.dropWhile (fun x => !isWsChar x) by rw [List.cons_append, ← hcs]]
          unfold stripR stripL
          rw [List.reverse_append,
            List.dropWhile_append]
          have hws : (cs.dropWhile (fun x => !isWsChar x)).reverse.dropWhile
              (fun c => isWsChar c) = [] := by
            rw [List.dropWhile_eq_nil_iff]
            intro x hx
            exact hrest x (by simpa using hx)
          simp only [hws, List.isEmpty_nil, if_true]
          have : stripR (c :: cs.takeWhile (fun x => !isWsChar x)) =
              c :: cs.takeWhile (fun x => !isWsChar x) := stripR_word hword
          simpa [stripR, stripL] using this
        have h2 : fields (cs.dropWhile (fun x => !isWsChar x)) = [] :=
          fields_all_ws hrest
        rw [h1, hfv, h2]
        rfl
      · -- a second word exists
        push_neg at hrest
        -- decompose the remainder into its whitespace gap and the tail
        have hgap : ∀ x ∈ (cs.dropWhile (fun x => !isWsChar x)).takeWhile
            (fun x => isWsChar x), isWsChar x = true := by
          intro x hx
          exact List.mem_takeWhile_imp hx
        have htail_head : ∀ x, ((cs.dropWhile (fun x => !isWsChar x)).dropWhile
            (fun x => isWsChar x)).head? = some x → isWsChar x = false := by
          intro x hx
          exact dropWhile_head_false _ _ x hx
        have hsplit : cs.dropWhile (fun x => !isWsChar x) =
            (cs.dropWhile (fun x => !isWsChar x)).takeWhile (fun x => isWsChar x) ++
            (cs.dropWhile (fun x => !isWsChar x)).dropWhile (fun x => isWsChar x) :=
          (List.takeWhile_append_dropWhile _ _).symm
        -- the remainder is nonempty and starts with whitespace
        obtain ⟨y, hy, hyws⟩ := hrest
        have hrest_ne : cs.dropWhile (fun x => !isWsChar x) ≠ [] := by
          intro h0; rw [h0] at hy; simp at hy
        have hrest_head_ws : ∀ x,
            (cs.dropWhile (fun x => !isWsChar x)).head? = some x →
            isWsChar x = true := by
          intro x hx
          have := dropWhile_head_false (fun x => !isWsChar x) cs x hx
          simpa using this
        -- the tail is nonempty
        have htail_ne : (cs.dropWhile (fun x => !isWsChar x)).dropWhile
            (fun x => isWsChar x) ≠ [] := by
          intro h0
          rw [List.dropWhile_eq_nil_iff] at h0
          exact (by simpa [hyws] using h0 y hy : False)
        -- the gap is nonempty
        have hgap_ne : (cs.dropWhile (fun x => !isWsChar x)).takeWhile
            (fun x => isWsChar x) ≠ [] := by
          cases hdc : cs.dropWhile (fun x => !isWsChar x) with
          | nil => exact absurd hdc hrest_ne
          | cons r rs =>
            have h1 : isWsChar r = true := hrest_head_ws r (by rw [hdc]; rfl)
            rw [List.takeWhile_cons_of_pos h1]
            simp
        -- name the three pieces
        set W := c :: cs.takeWhile (fun x => !isWsChar x) with hW
        set G := (cs.dropWhile (fun x => !isWsChar x)).takeWhile
          (fun x => isWsChar x) with hG
        set V := (cs.dropWhile (fun x => !isWsChar x)).dropWhile
          (fun x => isWsChar x) with hV
        have hdecomp : c :: cs = W ++ (G ++ V) := by
          rw [hW, List.cons_append]
          congr 1
          rw [← hsplit, ← hcs]
        have hVlen : V.length ≤ n := by
          have l1 : V.length ≤ (cs.dropWhile (fun x => !isWsChar x)).length :=
            (List.dropWhile_sublist _).length_le
          have l2 : (cs.dropWhile (fun x => !isWsChar x)).length ≤ cs.length :=
            (List.dropWhile_sublist _).length_le
          have l3 : cs.length + 1 ≤ n + 1 := by simpa using hv
          omega
        have hstripV : stripR V ≠ [] := stripR_ne_nil htail_ne htail_head
        have hstripGV : stripR (G ++ V) = G ++ stripR V := stripR_append hstripV
        have hGV_ne : stripR (G ++ V) ≠ [] := by
          rw [hstripGV]
          intro h0
          exact hgap_ne (List.append_eq_nil.mp h0).1
        have hstrip : stripR (c :: cs) = W ++ (G ++ stripR V) := by
          rw [hdecomp, stripR_append hGV_ne, hstripGV]
        have hfieldsV : fields (G ++ V) = fields V := fields_wsLead hgap V
        have hfV_ne : fields V ≠ [] := by
          cases hVc : V with
          | nil => exact absurd hVc htail_ne
          | cons d ds =>
            have hd : isWsChar d = false := by
              apply htail_head
              rw [hVc]; rfl
            rw [fields_cons_nws hd]
            simp
        have hfields2 : fields (c :: cs) = W :: fields V := by
          rw [hfv, hsplit, hfieldsV]
        -- both sides reduce to the same prefix and a tail handled by ih
        have lhsEq : collapseGo b (removePunct (stripR (c :: cs))) =
            collapseGo b (removePunct W) ++
              collapseGo (stateAfter b (removePunct W))
                (' ' :: removePunct (stripR V)) := by
          rw [hstrip, removePunct_append, collapseGo_append, removePunct_append,
            removePunct_ws hgap, collapseGo_wsRun hgap_ne hgap]
        have rhsEq : collapseGo b (removePunct (joinSp (fields (c :: cs)))) =
            collapseGo b (removePunct W) ++
              collapseGo (stateAfter b (removePunct W))
                (' ' :: removePunct (joinSp (fields V))) := by
          rw [hfields2, joinSp_cons hfV_ne, removePunct_append,
            removePunct_cons_ws (c := ' ') (by decide), collapseGo_append]
        rw [lhsEq, rhsEq]
        congr 1
        have hsp : isWsChar ' ' = true := by decide
        cases stateAfter b (removePunct W) with
        | false =>
          simp only [collapseGo, hsp, if_true, Bool.false_eq_true, if_false]
          rw [ih V hVlen htail_head true]
        | true =>
          simp only [collapseGo, hsp, if_true]
          rw [ih V hVlen htail_head true]

theorem normalize_canon (s : Str) :
    normalize s = collapseWs (removePunct (joinSp (fields (lowerStr s)))) := by
  unfold normalize pstrip collapseWs
  rw [← fields_stripL (lowerStr s)]
  exact canonGo (stripL (lowerStr s)).length (stripL (lowerStr s)) le_rfl
    stripL_head_not_ws false

/- ------------------------------------------------------------------ -/
/- Case folding commutes with the word decomposition                   -/
/- ------------------------------------------------------------------ -/

theorem fieldsGo_map (s : Str) : ∀ acc : Str,
    fieldsGo (acc.map lowChar) (s.map lowChar) =
      (fieldsGo acc s).map (fun w => w.map lowChar) := by
  induction s with
  | nil =>
    intro acc
    cases acc with
    | nil => rfl
    | cons a as => simp [fieldsGo, List.map_reverse]
  | cons c cs ih =>
    intro acc
    simp only [List.map_cons]
    by_cases hw : isWsChar c = true
    · have hw' : isWsChar (lowChar c) = true := by rw [isWsChar_lowChar]; exact hw
      cases acc with
      | nil =>
        simp only [fieldsGo, hw, hw', if_true, List.map_nil, List.isEmpty_nil,
          if_true]
        exact ih []
      | cons a as =>
        simp only [fieldsGo, hw, hw', if_true, List.map_cons, List.isEmpty_cons,
          Bool.false_eq_true, if_false]
        have hnil := ih []
        simp only [List.map_nil] at hnil
        rw [hnil, List.map_reverse]
        rfl
    · have hw' : isWsChar (lowChar c) = false := by
        rw [isWsChar_lowChar]; simpa using hw
      have hwf : isWsChar c = false := by simpa using hw
      simp only [fieldsGo, hwf, hw', Bool.false_eq_true, if_false]
      exact ih (c :: acc)

theorem fields_lower (s : Str) : fields (lowerStr s) = (fields s).map lowerStr := by
  have := fieldsGo_map s []
  simpa [fields, lowerStr] using this

theorem normalize_fields_inv {s t : Str} (h : fields s = fields t) :
    normalize s = normalize t := by
  rw [normalize_canon, normalize_canon, fields_lower, fields_lower, h]

theorem normalize_lower_inv {s t : Str} (h : lowerStr s = lowerStr t) :
    normalize s = normalize t := by
  unfold normalize
  rw [h]

/- ------------------------------------------------------------------ -/
/- Punctuation insertion away from stripped whitespace                 -/
/- ------------------------------------------------------------------ -/

theorem stripL_eq_self_head {s : Str} (h : stripL s = s) :
    ∀ c, s.head? = some c → isWsChar c = false := by
  intro c hc
  cases s with
  | nil => simp at hc
  | cons d ds =>
    simp only [List.head?_cons, Option.some.injEq] at hc
    rw [← hc]
    by_contra hw
    have hw' : isWsChar d = true := by simpa using hw
    rw [stripL_cons_ws hw'] at h
    have hlen := congrArg List.length h
    have hle := stripL_length_le ds
    simp only [List.length_cons] at hlen
    omega

theorem pstrip_eq_self_parts {s : Str} (h : pstrip s = s) :
    stripL s = s ∧ stripR s = s := by
  have h2 : (stripR (stripL s)).length ≤ (stripL s).length := by
    unfold stripR
    have := stripL_length_le (stripL s).reverse
    simpa using this
  have hlen : (stripL s).length = s.length := by
    have h3 := congrArg List.length h
    unfold pstrip at h3
    have h4 := stripL_length_le s
    omega
  have hL : stripL s = s :=
    (List.dropWhile_suffix _).eq_of_length hlen
  refine ⟨hL, ?_⟩
  have h5 := h
  unfold pstrip at h5
  rwa [hL] at h5

theorem stripR_eq_self_revhead {s : Str} (h : stripR s = s) :
    ∀ c, s.reverse.head? = some c → isWsChar c = false := by
  have h' : stripL s.reverse = s.reverse := by
    have := congrArg List.reverse h
    simpa [stripR] using this
  exact stripL_eq_self_head h'

theorem head_not_ws_insert {A B : Str} {p : Char} (hp : isWsChar p = false)
    (hAB : ∀ c, (A ++ B).head? = some c → isWsChar c = false) :
    ∀ c, (A ++ p :: B).head? = some c → isWsChar c = false := by
  intro c hc
  cases A with
  | nil =>
    simp only [List.nil_append, List.head?_cons, Option.some.injEq] at hc
    rw [← hc]
    exact hp
  | cons a as =>
    simp only [List.cons_append, List.head?_cons, Option.some.injEq] at hc
    rw [← hc]
    exact hAB a (by simp)

theorem pstrip_lower_eq_self {x : Str}
    (h1 : ∀ c, x.head? = some c → isWsChar c = false)
    (h2 : ∀ c, x.reverse.head? = some c → isWsChar c = false) :
    pstrip (lowerStr x) = lowerStr x := by
  have hL : stripL (lowerStr x) = lowerStr x := by
    apply stripL_eq_self
    intro c hc
    rw [lowerStr, List.head?_map] at hc
    cases hx : x.head? with
    | none => rw [hx] at hc; simp at hc
    | some d =>
      rw [hx] at hc
      have hcd : lowChar d = c := by simpa using hc
      subst hcd
      rw [isWsChar_lowChar]
      exact h1 d hx
  have hR : stripR (lowerStr x) = lowerStr x := by
    apply stripR_eq_self
    intro c hc
    rw [lowerStr, ← List.map_reverse, List.head?_map] at hc
    cases hx : x.reverse.head? with
    | none => rw [hx] at hc; simp at hc
    | some d =>
      rw [hx] at hc
      have hcd : lowChar d = c := by simpa using hc
      subst hcd
      rw [isWsChar_lowChar]
      exact h2 d hx
  unfold pstrip
  rw [hL, hR]

theorem normalize_punct_insert (s : Str) (i : Nat) (p : Char)
    (hp : isPunctChar p = true) (hs : pstrip s = s) :
    normalize (s.take i ++ p :: s.drop i) = normalize s := by
  obtain ⟨hL, hR⟩ := pstrip_eq_self_parts hs
  have hpws : isWsChar p = false := not_ws_of_punct hp
  have hhead : ∀ c, s.head? = some c → isWsChar c = false := stripL_eq_self_head hL
  have hrevhead : ∀ c, s.reverse.head? = some c → isWsChar c = false :=
    stripR_eq_self_revhead hR
  have hhead' : ∀ c, (s.take i ++ p :: s.drop i).head? = some c →
      isWsChar c = false := by
    apply head_not_ws_insert hpws
    intro c hc
    rw [List.take_append_drop] at hc
    exact hhead c hc
  have hrevhead' : ∀ c, (s.take i ++ p :: s.drop i).reverse.head? = some c →
      isWsChar c = false := by
    have hshape : (s.take i ++ p :: s.drop i).reverse =
        (s.drop i).reverse ++ p :: (s.take i).reverse := by
      rw [List.reverse_append, List.reverse_cons, List.append_assoc,
        List.singleton_append]
    rw [hshape]
    apply head_not_ws_insert hpws
    intro c hc
    rw [← List.reverse_append, List.take_append_drop] at hc
    exact hrevhead c hc
  unfold normalize
  rw [pstrip_lower_eq_self hhead' hrevhead', pstrip_lower_eq_self hhead hrevhead]
  congr 1
  show removePunct ((s.take i ++ p :: s.drop i).map lowChar) =
    removePunct (s.map lowChar)
  rw [List.map_append, List.map_cons, lowChar_of_punct hp]
  have hpfilter : removePunct (p :: (s.drop i).map lowChar) =
      removePunct ((s.drop i).map lowChar) := by
    unfold removePunct
    rw [List.filter_cons]
    simp [hp]
  rw [removePunct_append, hpfilter, ← removePunct_append, ← List.map_append,
    List.take_append_drop]

/- ------------------------------------------------------------------ -/
/- Digest shape                                                        -/
/- ------------------------------------------------------------------ -/

theorem wordHex_length (n : Nat) : (wordHex n).length = 8 := by
  simp [wordHex]

theorem wordHex_mem {n : Nat} {x : Char} (h : x ∈ wordHex n) : x ∈ hexChars := by
  have hall : ∀ m : Nat, m < 16 → hexDigit m ∈ hexChars := by decide
  rw [wordHex] at h
  simp only [List.mem_map, List.mem_range] at h
  obtain ⟨i, _, hx⟩ := h
  subst hx
  exact hall _ (Nat.mod_lt _ (by norm_num))

theorem digestHex_length (st : H8) : (digestHex st).length = 64 := by
  simp [digestHex, wordHex_length]

theorem digestHex_mem {st : H8} {x : Char} (h : x ∈ digestHex st) :
    x ∈ hexChars := by
  simp only [digestHex, List.mem_append] at h
  rcases h with ((((((h | h) | h) | h) | h) | h) | h) | h <;> exact wordHex_mem h

/- ------------------------------------------------------------------ -/
/- The fingerprint only sees the three normalized inputs               -/
/- ------------------------------------------------------------------ -/

theorem cch_congr {t c d t' c' d' : Str} (h1 : normalize t = normalize t')
    (h2 : normalize c = normalize c')
    (h3 : normalize (d.take 500) = normalize (d'.take 500)) :
    compute_content_hash t c d = compute_content_hash t' c' d' := by
  unfold compute_content_hash
  rw [h1, h2, h3]

/- ------------------------------------------------------------------ -/
/- Claim C1                                                            -/
/- ------------------------------------------------------------------ -/

/-- C1 counterexample: appending the single punctuation character `!` to the
title `"a "` changes the fingerprint, because `_normalize` strips before
removing punctuation, so the trailing space survives in `"a !"` but not in
`"a "`.  This refutes the claim that the hash is unchanged by adding
punctuation characters (and, equally, by whitespace variation). -/
theorem C1_counterexample :
    compute_content_hash (str "a ") (str "") (str "") ≠
      compute_content_hash (str "a !") (str "") (str "") := by decide

/-- C1 (amended): `compute_content_hash` always returns a 64-character string
of lowercase hex digits; it is deterministic; it ignores every change to the
description at or beyond character index 500; it is unchanged by case
variation of any of the three inputs; it is unchanged by whitespace variation
that preserves each input's sequence of whitespace-separated words (for the
description, the word sequence of its first 500 characters); and it is
unchanged by inserting (equivalently, removing) one punctuation character in
an input that has no leading or trailing whitespace (for the description,
provided the result stays within the 500-character window).  Unlike the
original claim, a punctuation or whitespace edit that changes which
whitespace is leading/trailing, or that shifts the 500-character window,
can change the hash (see the counterexample). -/
theorem C1_fingerprint_amended :
    (∀ t c d : Str, (compute_content_hash t c d).length = 64 ∧
      (∀ x ∈ compute_content_hash t c d, x ∈ hexChars)) ∧
    (∀ t c d t' c' d' : Str, t = t' → c = c' → d = d' →
      compute_content_hash t c d = compute_content_hash t' c' d') ∧
    (∀ t c d d' : Str, d.take 500 = d'.take 500 →
      compute_content_hash t c d = compute_content_hash t c d') ∧
    (∀ t t' c c' d d' : Str, lowerStr t = lowerStr t' →
      lowerStr c = lowerStr c' → lowerStr d = lowerStr d' →
      compute_content_hash t c d = compute_content_hash t' c' d') ∧
    (∀ t t' c c' d d' : Str, fields t = fields t' → fields c = fields c' →
      fields (d.take 500) = fields (d'.take 500) →
      compute_content_hash t c d = compute_content_hash t' c' d') ∧
    (∀ t c d : Str, ∀ i : Nat, ∀ p : Char, isPunctChar p = true →
      pstrip t = t →
      compute_content_hash (t.take i ++ p :: t.drop i) c d =
        compute_content_hash t c d) ∧
    (∀ t c d : Str, ∀ i : Nat, ∀ p : Char, isPunctChar p = true →
      pstrip c = c →
      compute_content_hash t (c.take i ++ p :: c.drop i) d =
        compute_content_hash t c d) ∧
    (∀ t c d : Str, ∀ i : Nat, ∀ p : Char, isPunctChar p = true →
      pstrip d = d → d.length ≤ 499 →
      compute_content_hash t c (d.take i ++ p :: d.drop i) =
        compute_content_hash t c d) := by
  refine ⟨?_, ?_, ?_, ?_, ?_, ?_, ?_, ?_⟩
  · intro t c d
    refine ⟨digestHex_length _, ?_⟩
    intro x hx
    exact digestHex_mem hx
  · intro t c d t' c' d' h1 h2 h3
    rw [h1, h2, h3]
  · intro t c d d' h
    exact cch_congr rfl rfl (by rw [h])
  · intro t t' c c' d d' h1 h2 h3
    refine cch_congr (normalize_lower_inv h1) (normalize_lower_inv h2) ?_
    apply normalize_lower_inv
    show (d.take 500).map lowChar = (d'.take 500).map lowChar
    rw [List.map_take, List.map_take]
    exact congrArg (List.take 500) h3
  · intro t t' c c' d d' h1 h2 h3
    exact cch_congr (normalize_fields_inv h1) (normalize_fields_inv h2)
      (normalize_fields_inv h3)
  · intro t c d i p hp ht
    exact cch_congr (normalize_punct_insert t i p hp ht) rfl rfl
  · intro t c d i p hp hc
    exact cch_congr rfl (normalize_punct_insert c i p hp hc) rfl
  · intro t c d i p hp hd hlen
    refine cch_congr rfl rfl ?_
    have hlen' : (d.take i ++ p :: d.drop i).length = d.length + 1 := by
      simp [List.length_append, List.length_take, List.length_drop]
      omega
    have e1 : (d.take i ++ p :: d.drop i).take 500 = d.take i ++ p :: d.drop i :=
      List.take_of_length_le (by omega)
    have e2 : d.take 500 = d := List.take_of_length_le (by omega)
    rw [e1, e2]
    exact normalize_punct_insert d i p hp hd

/-- C1 witness: the amended theorem applied at concrete inputs — a
whitespace-variant title (same words) and a punctuation insertion into a
strip-fixed title both leave the fingerprint unchanged. -/
theorem C1_witness :
    (fields (str " Process  Engineer ") = fields (str "Process Engineer") ∧
      compute_content_hash (str " Process  Engineer ") (str "Acme")
          (str "Design processes") =
        compute_content_hash (str "Process Engineer") (str "Acme")
          (str "Design processes")) ∧
    (isPunctChar '!' = true ∧ pstrip (str "abc") = str "abc" ∧
      compute_content_hash (str "ab!c") (str "x") (str "y") =
        compute_content_hash (str "abc") (str "x") (str "y")) :=
  ⟨⟨by decide,
    C1_fingerprint_amended.2.2.2.2.1 _ _ _ _ _ _ (by decide) rfl rfl⟩,
   ⟨by decide, by decide,
    C1_fingerprint_amended.2.2.2.2.2.1 (str "abc") (str "x") (str "y") 2 '!'
      (by decide) (by decide)⟩⟩

/- ------------------------------------------------------------------ -/
/- Persistence model (db/models.py, db/crud.py)                        -/
/- ------------------------------------------------------------------ -/

/-- The fields of a job dict that deduplication reads; `none` models an
absent dict key (and, for a stored row, SQL NULL). -/
structure JobRec where
  url : Option String
  contentHash : Option String

/-- The jobs table (models.py): stored rows with their ids, plus the
autoincrement counter.  `url` carries a UNIQUE constraint, enforced at
insert time by `insert_job`. -/
structure Store where
  rows : List (Nat × JobRec)
  nextId : Nat

/-- `job_exists` (crud.py lines 31-34): `SELECT 1 FROM jobs WHERE url = ?`.
A stored row with NULL url never matches. -/
def job_exists (st : Store) (u : String) : Bool :=
  st.rows.any (fun r => r.2.url == some u)

/-- `insert_job` (crud.py lines 18-28): insert the row and return its id, or
return `none` when the insert raises `sqlite3.IntegrityError` (caught and
converted): either the UNIQUE constraint on url — an existing row with the
same non-NULL url, the same predicate as `job_exists` — or the NOT NULL
constraint on url when the dict has no url key.  (The other NOT NULL
columns — title, company, date_scraped, source — lie outside this record
model and are taken as present.) -/
def insert_job (st : Store) (j : JobRec) : Option Nat × Store :=
  match j.url with
  | some u =>
    if job_exists st u then (none, st)
    else (some st.nextId, ⟨st.rows ++ [(st.nextId, j)], st.nextId + 1⟩)
  | none => (none, st)

/- ------------------------------------------------------------------ -/
/- Duplicate detector (dedup/deduplicator.py)                          -/
/- ------------------------------------------------------------------ -/

/-- Python truthiness of an optional string (`if content_hash:` on the
result of `dict.get`): false for an absent key and for the empty string. -/
def truthyS (o : Option String) : Bool := !(o.getD "" == "")

/-- `is_duplicate` (deduplicator.py lines 41-43); the caller's Python set of
hashes is modelled as a list, of which only membership is used. -/
def is_duplicate (contentHash : String) (existing : List String) : Bool :=
  existing.contains contentHash

/-- `deduplicated_insert` (deduplicator.py lines 46-79).  The mutation of
`conn` and of the caller's hash set is modelled by returning the new store
and the new hash set alongside the result. -/
def deduplicated_insert (st : Store) (j : JobRec) (existing : List String) :
    Option Nat × Store × List String :=
  if job_exists st (j.url.getD "") then (none, st, existing)
  else if truthyS j.contentHash &&
      is_duplicate (j.contentHash.getD "") existing then
    (none, st, existing)
  else
    match insert_job st j with
    | (none, st') => (none, st', existing)
    | (some jobId, st') =>
      if truthyS j.contentHash then
        (some jobId, st', j.contentHash.getD "" :: existing)
      else (some jobId, st', existing)

/- ------------------------------------------------------------------ -/
/- Dedup helper lemmas                                                 -/
/- ------------------------------------------------------------------ -/

theorem dedup_of_url_exists {st : Store} {j : JobRec}
    (h : job_exists st (j.url.getD "") = true) (hs : List String) :
    deduplicated_insert st j hs = (none, st, hs) := by
  unfold deduplicated_insert
  rw [if_pos h]

theorem dedup_spec (st : Store) (j : JobRec) (hs : List String) :
    deduplicated_insert st j hs = (none, st, hs) ∨
    (job_exists st (j.url.getD "") = false ∧
      deduplicated_insert st j hs =
        (some st.nextId, ⟨st.rows ++ [(st.nextId, j)], st.nextId + 1⟩,
          if truthyS j.contentHash then j.contentHash.getD "" :: hs else hs)) := by
  unfold deduplicated_insert
  split
  · exact Or.inl rfl
  · rename_i hurl
    have hurl' : job_exists st (j.url.getD "") = false := by simpa using hurl
    split
    · exact Or.inl rfl
    · rcases hu : j.url with _ | u
      · left
        have hins : insert_job st j = (none, st) := by simp [insert_job, hu]
        rw [hins]
      · right
        refine ⟨by rwa [hu] at hurl', ?_⟩
        have hins : insert_job st j =
            (some st.nextId, ⟨st.rows ++ [(st.nextId, j)], st.nextId + 1⟩) := by
          have hex : job_exists st u = false := by simpa [hu] using hurl'
          simp [insert_job, hu, hex]
        rw [hins]
        split
        · rename_i hth
          simp at hth
        · rename_i jobId st2 hth
          simp only [Prod.mk.injEq, Option.some.injEq] at hth
          obtain ⟨h1, h2⟩ := hth
          subst h1
          subst h2
          split <;> rename_i hth2 <;> simp [hth2]

theorem dedup_reject_state {st : Store} {j : JobRec} {hs : List String}
    (h : (deduplicated_insert st j hs).1 = none) :
    deduplicated_insert st j hs = (none, st, hs) := by
  rcases dedup_spec st j hs with h1 | ⟨_, h1⟩
  · exact h1
  · rw [h1] at h
    simp at h

theorem dedup_success {st : Store} {j : JobRec} {hs : List String} {i : Nat}
    (h : (deduplicated_insert st j hs).1 = some i) :
    i = st.nextId ∧
    deduplicated_insert st j hs =
      (some st.nextId, ⟨st.rows ++ [(st.nextId, j)], st.nextId + 1⟩,
        if truthyS j.contentHash then j.contentHash.getD "" :: hs else hs) ∧
    job_exists st (j.url.getD "") = false := by
  rcases dedup_spec st j hs with h1 | ⟨h0, h1⟩
  · rw [h1] at h
    simp at h
  · rw [h1] at h
    simp only [Option.some.injEq] at h
    exact ⟨h.symm, h1, h0⟩

/- ------------------------------------------------------------------ -/
/- Claims C2, C3, C9                                                   -/
/- ------------------------------------------------------------------ -/

/-- C2: two job records with distinct urls, neither stored, sharing one
non-empty content hash that is not yet in the caller's set: the first call
inserts (returning the fresh id) and pushes the hash into the caller-supplied
set as a side effect; the second call is then rejected (returns `none`) at
the content-hash stage without the set having been re-fetched from storage,
and no second row is stored. -/
theorem C2_cross_source_dedup (st : Store) (j1 j2 : JobRec)
    (hs : List String) (u1 u2 h0 : String)
    (hu1 : j1.url = some u1) (hu2 : j2.url = some u2) (hne : u1 ≠ u2)
    (hex1 : job_exists st u1 = false) (hex2 : job_exists st u2 = false)
    (hh1 : j1.contentHash = some h0) (hh2 : j2.contentHash = some h0)
    (hh0 : h0 ≠ "") (hfresh : hs.contains h0 = false) :
    (deduplicated_insert st j1 hs).1 = some st.nextId ∧
    (deduplicated_insert st j1 hs).2.2 = h0 :: hs ∧
    (deduplicated_insert st j1 hs).2.1.rows.length = st.rows.length + 1 ∧
    (deduplicated_insert (deduplicated_insert st j1 hs).2.1 j2
        (deduplicated_insert st j1 hs).2.2).1 = none ∧
    (deduplicated_insert (deduplicated_insert st j1 hs).2.1 j2
        (deduplicated_insert st j1 hs).2.2).2.1 =
      (deduplicated_insert st j1 hs).2.1 := by
  have hfresh' : h0 ∉ hs := by simpa using hfresh
  have e1 : deduplicated_insert st j1 hs =
      (some st.nextId, ⟨st.rows ++ [(st.nextId, j1)], st.nextId + 1⟩,
        h0 :: hs) := by
    simp [deduplicated_insert, insert_job, is_duplicate, truthyS,
      hu1, hh1, hex1, hfresh', hh0]
  have hex2' : job_exists
      (⟨st.rows ++ [(st.nextId, j1)], st.nextId + 1⟩ : Store) u2 = false := by
    simp only [job_exists, List.any_append] at hex2 ⊢
    simp [hex2, hu1, hne]
  have e2 : deduplicated_insert
      (⟨st.rows ++ [(st.nextId, j1)], st.nextId + 1⟩ : Store) j2 (h0 :: hs) =
      (none, ⟨st.rows ++ [(st.nextId, j1)], st.nextId + 1⟩, h0 :: hs) := by
    simp [deduplicated_insert, is_duplicate, truthyS, hu2, hh2, hex2', hh0]
  rw [e1]
  simp only
  rw [e2]
  simp

/-- C2 witness: the theorem at a concrete store and two concrete records. -/
theorem C2_witness :
    ("u1" : String) ≠ "u2" ∧
    (deduplicated_insert ⟨[], 1⟩ ⟨some "u1", some "h"⟩ []).1 = some 1 :=
  ⟨by decide,
   (C2_cross_source_dedup ⟨[], 1⟩ ⟨some "u1", some "h"⟩ ⟨some "u2", some "h"⟩
      [] "u1" "u2" "h" rfl rfl (by decide) (by decide) (by decide) rfl rfl
      (by decide) (by decide)).1⟩

/-- C3: calling `deduplicated_insert` twice with the same record (same url)
stores at most one new row — exactly one when the first call inserts — and
the second call always returns `none` leaving store and hash set unchanged;
when the url is already stored the rejection happens at the URL stage for
every hash set, without mutating it; and a store-level uniqueness violation
inside `insert_job` also surfaces as a `none` result rather than an error. -/
theorem C3_dedup_idempotence (st : Store) (j : JobRec) (hs : List String)
    (u : String) (hu : j.url = some u) :
    (deduplicated_insert (deduplicated_insert st j hs).2.1 j
        (deduplicated_insert st j hs).2.2 =
      (none, (deduplicated_insert st j hs).2.1,
        (deduplicated_insert st j hs).2.2)) ∧
    (deduplicated_insert st j hs).2.1.rows.length ≤ st.rows.length + 1 ∧
    (∀ i : Nat, (deduplicated_insert st j hs).1 = some i →
      (deduplicated_insert st j hs).2.1.rows.length = st.rows.length + 1) ∧
    (job_exists st u = true →
      ∀ hs' : List String, deduplicated_insert st j hs' = (none, st, hs')) ∧
    ((insert_job st j).1 = none → (deduplicated_insert st j hs).1 = none) := by
  refine ⟨?_, ?_, ?_, ?_, ?_⟩
  · rcases hr : (deduplicated_insert st j hs).1 with _ | i
    · have h1 := dedup_reject_state hr
      rw [h1]
      exact h1
    · obtain ⟨_, he, _⟩ := dedup_success hr
      rw [he]
      apply dedup_of_url_exists
      simp [job_exists, hu, List.any_append]
  · rcases dedup_spec st j hs with h1 | ⟨_, h1⟩ <;> rw [h1] <;> simp
  · intro i hi
    obtain ⟨_, he, _⟩ := dedup_success hi
    rw [he]
    simp
  · intro hex hs'
    apply dedup_of_url_exists
    rw [hu]
    simpa using hex
  · intro hins
    rcases dedup_spec st j hs with h1 | ⟨hex, h1⟩
    · rw [h1]
    · rw [hu] at hex
      simp only [Option.getD_some] at hex
      simp [insert_job, hu, hex] at hins

/-- C3 witness: the theorem at a concrete record inserted twice. -/
theorem C3_witness :
    (JobRec.mk (some "u") (some "h")).url = some "u" ∧
    deduplicated_insert
        (deduplicated_insert ⟨[], 1⟩ ⟨some "u", some "h"⟩ []).2.1
        ⟨some "u", some "h"⟩
        (deduplicated_insert ⟨[], 1⟩ ⟨some "u", some "h"⟩ []).2.2 =
      (none, (deduplicated_insert ⟨[], 1⟩ ⟨some "u", some "h"⟩ []).2.1,
        (deduplicated_insert ⟨[], 1⟩ ⟨some "u", some "h"⟩ []).2.2) :=
  ⟨rfl, (C3_dedup_idempotence ⟨[], 1⟩ ⟨some "u", some "h"⟩ [] "u" rfl).1⟩

/-- C9: the caller-supplied hash set is returned unchanged on every rejection
branch of `deduplicated_insert` (URL hit, hash hit, or insert-time uniqueness
violation), and is extended — by exactly the job's content hash, and only
when that hash is truthy (non-empty, present) — on successful insert. -/
theorem C9_hash_set_frame (st : Store) (j : JobRec) (hs : List String) :
    ((deduplicated_insert st j hs).1 = none →
      (deduplicated_insert st j hs).2.2 = hs) ∧
    (∀ i : Nat, (deduplicated_insert st j hs).1 = some i →
      (deduplicated_insert st j hs).2.2 =
        if truthyS j.contentHash then j.contentHash.getD "" :: hs else hs) := by
  constructor
  · intro h
    rw [dedup_reject_state h]
  · intro i h
    obtain ⟨_, he, _⟩ := dedup_success h
    rw [he]

/-- C9 witness: the theorem's success conjunct at a concrete insert. -/
theorem C9_witness :
    (deduplicated_insert ⟨[], 1⟩ ⟨some "u", some "h"⟩ []).1 = some 1 ∧
    (deduplicated_insert ⟨[], 1⟩ ⟨some "u", some "h"⟩ []).2.2 =
      (if truthyS (some "h") then ["h"] else []) :=
  ⟨by decide,
   (C9_hash_set_frame ⟨[], 1⟩ ⟨some "u", some "h"⟩ []).2 1 (by decide)⟩

/- ------------------------------------------------------------------ -/
/- Regex engine: the Python `re` subset used by the filter patterns    -/
/- ------------------------------------------------------------------ -/

/-- Python regex word character: ASCII alphanumeric or underscore; non-ASCII
code points are treated as word characters (covering the accented letters in
the patterns and inputs). -/
def isWordChar (c : Char) : Bool :=
  c.isAlphanum || c == '_' || decide (128 ≤ c.toNat)

/-- The regex sublanguage the filter patterns use: literals, character
classes (as predicates), sequencing, alternation, option, a run of a class
(for backslash-s star; plus is class followed by star), and the zero-width
word boundary. -/
inductive Rx where
  | eps : Rx
  | lit : Char → Rx
  | cls : (Char → Bool) → Rx
  | seq : Rx → Rx → Rx
  | alt : Rx → Rx → Rx
  | opt : Rx → Rx
  | manyCls : (Char → Bool) → Rx
  | wordB : Rx

/-- Every way a class run can stop: consume any prefix of class characters,
returning the last consumed character and the remaining input. -/
def manyRun (f : Char → Bool) : Option Char → Str → List (Option Char × Str)
  | p, [] => [(p, [])]
  | p, d :: ds => (p, d :: ds) :: (if f d then manyRun f (some d) ds else [])

/-- Word-boundary test between the previous character and the rest. -/
def atBoundary (p : Option Char) (s : Str) : Bool :=
  (match p with | none => false | some c => isWordChar c) !=
    (match s with | [] => false | d :: _ => isWordChar d)

/-- Match a prefix of the input, given the previous character; each result
is a possible state (previous character, remaining input) after matching. -/
def mrun : Rx → Option Char → Str → List (Option Char × Str)
  | .eps, p, s => [(p, s)]
  | .lit _, _, [] => []
  | .lit c, _, d :: ds => if d == c then [(some d, ds)] else []
  | .cls _, _, [] => []
  | .cls f, _, d :: ds => if f d then [(some d, ds)] else []
  | .seq a b, p, s => (mrun a p s).flatMap (fun pr => mrun b pr.1 pr.2)
  | .alt a b, p, s => mrun a p s ++ mrun b p s
  | .opt a, p, s => (p, s) :: mrun a p s
  | .manyCls f, p, s => manyRun f p s
  | .wordB, p, s => if atBoundary p s then [(p, s)] else []

/-- `re.search` worker: try a match at the current position, else advance. -/
def searchGo (r : Rx) : Option Char → Str → Bool
  | p, [] => !(mrun r p []).isEmpty
  | p, d :: ds => !(mrun r p (d :: ds)).isEmpty || searchGo r (some d) ds

/-- `re.search(pattern, text) is not None`. -/
def reSearch (r : Rx) (s : Str) : Bool := searchGo r none s

/-- Case-insensitive search: every configured pattern carries `(?i)`,
modelled by lowercasing the text (pattern literals are lowercase already). -/
def searchCI (r : Rx) (s : Str) : Bool := reSearch r (lowerStr s)

/-- `_matches_any` (keyword_filter.py lines 20-25). -/
def matchesAny (patterns : List Rx) (text : Str) : Bool :=
  patterns.any (fun r => searchCI r text)

/- ------------------------------------------------------------------ -/
/- Pattern transcription helpers                                       -/
/- ------------------------------------------------------------------ -/

/-- A literal string as a regex. -/
def strRx : Str → Rx
  | [] => .eps
  | c :: cs => .seq (.lit c) (strRx cs)

/-- Left-fold an alternation `(r|r1|r2|...)`. -/
def altOf (r : Rx) (rs : List Rx) : Rx := rs.foldl Rx.alt r

/-- The class backslash-s, starred and plussed. -/
def wsStar : Rx := .manyCls isWsChar
def wsPlus : Rx := .seq (.cls isWsChar) (.manyCls isWsChar)

/-- A whole word: word boundary, literal, word boundary. -/
def wordRx (w : String) : Rx := .seq .wordB (.seq (strRx w.data) .wordB)

/-- The class backslash-d. -/
def isDigitChar (c : Char) : Bool := decide (48 ≤ c.toNat ∧ c.toNat ≤ 57)

/-- The class `[5-9]`. -/
def is5to9 (c : Char) : Bool := decide (53 ≤ c.toNat ∧ c.toNat ≤ 57)

/-- The class `[- ]`. -/
def isDashSpace (c : Char) : Bool := c == '-' || c == ' '

/-- The common suffix of the year patterns after the optional plus:
a backslash-s star, `year`, an optional `s`, and a word boundary. -/
def yearsSfx : Rx :=
  .seq wsStar (.seq (strRx (str "year")) (.seq (.opt (.lit 's')) .wordB))

/- ------------------------------------------------------------------ -/
/- Configuration data (config.py)                                      -/
/- ------------------------------------------------------------------ -/

/-- `ROMANDIE_CANTONS` (config.py). -/
def ROMANDIE_CANTONS : List Str :=
  [str "GE", str "VD", str "VS", str "NE", str "JU", str "FR"]

/-- `ROMANDIE_CITIES` (config.py), as an association list. -/
def ROMANDIE_CITIES : List (Str × Str) :=
  [(str "Geneva", str "GE"), (str "Lausanne", str "VD"),
   (str "Sion", str "VS"), (str "Neuchatel", str "NE"),
   (str "Neuchâtel", str "NE"), (str "Fribourg", str "FR"),
   (str "Yverdon", str "VD"), (str "Yverdon-les-Bains", str "VD"),
   (str "Montreux", str "VD"), (str "Nyon", str "VD"),
   (str "Morges", str "VD"), (str "Vevey", str "VD"),
   (str "Renens", str "VD"), (str "Prilly", str "VD"),
   (str "Bienne", str "BE"), (str "Biel", str "BE"),
   (str "Delémont", str "JU"), (str "Sierre", str "VS"),
   (str "Martigny", str "VS"), (str "Monthey", str "VS")]

/-- `TARGET_KEYWORDS` (config.py): the per-discipline keyword lists
(process, automation, energy); only the lists of values are consumed. -/
def TARGET_KEYWORDS : List (List Str) :=
  [[str "process engineer", str "process engineering",
    str "chemical engineer", str "manufacturing engineer"],
   [str "automation engineer", str "automation engineering",
    str "control engineer", str "control systems",
    str "instrumentation engineer", str "PLC", str "SCADA", str "DCS"],
   [str "energy engineer", str "energy engineering", str "power engineer",
    str "power systems", str "renewable energy", str "electrical engineer"]]

/-- `LANGUAGE_EXCLUDE_PATTERNS` (config.py), transcribed pattern by
pattern. -/
def LANGUAGE_EXCLUDE_PATTERNS : List Rx :=
  [wordRx "français",
   wordRx "francais",
   .seq .wordB (.seq (strRx (str "french")) (.seq wsStar
     (altOf (.lit ':') [strRx (str "required"), strRx (str "fluent"),
       strRx (str "native"), strRx (str "courant"),
       strRx (str "mandatory")]))),
   .seq .wordB (.seq (strRx (str "german")) (.seq wsStar
     (altOf (.lit ':') [strRx (str "required"), strRx (str "fluent"),
       strRx (str "native"), strRx (str "mandatory")]))),
   wordRx "deutsch",
   wordRx "allemand",
   wordRx "muttersprache",
   .seq .wordB (.seq (strRx (str "langue")) (.seq wsPlus
     (.seq (strRx (str "maternelle")) .wordB))),
   .seq .wordB (.seq (strRx (str "courant")) (.seq wsPlus
     (.seq (strRx (str "requis")) .wordB)))]

/-- `SENIOR_EXCLUDE_PATTERNS` (config.py). -/
def SENIOR_EXCLUDE_PATTERNS : List Rx :=
  [wordRx "senior",
   wordRx "lead",
   wordRx "principal",
   wordRx "manager",
   wordRx "director",
   .seq .wordB (.seq (.cls is5to9) (.seq (.opt (.lit '+')) yearsSfx)),
   .seq .wordB (.seq (.cls isDigitChar) (.seq (.cls isDigitChar)
     (.seq (.opt (.lit '+')) yearsSfx)))]

/-- `ENROLLMENT_EXCLUDE_PATTERNS` (config.py). -/
def ENROLLMENT_EXCLUDE_PATTERNS : List Rx :=
  [.seq .wordB (.seq (strRx (str "currently")) (.seq wsPlus
     (.seq (strRx (str "enrolled")) .wordB))),
   .seq .wordB (.seq (strRx (str "must")) (.seq wsPlus
     (.seq (strRx (str "be")) (.seq wsPlus
       (.seq (strRx (str "enrolled")) .wordB))))),
   .seq .wordB (.seq (strRx (str "active")) (.seq wsPlus
     (.seq (strRx (str "student")) .wordB))),
   .seq .wordB (.seq (strRx (str "registered")) (.seq wsPlus
     (.seq (strRx (str "student")) .wordB))),
   .seq .wordB (.seq (strRx (str "enrolled")) (.seq wsPlus
     (.seq (strRx (str "in")) (.seq wsPlus
       (.seq (strRx (str "a")) (.seq wsPlus
         (.seq (altOf (strRx (str "university"))
             [strRx (str "master"), strRx (str "bachelor"),
              strRx (str "degree")]) .wordB)))))))]

/-- The restricted entry-level pattern list written inline in
`keyword_filter` (keyword_filter.py lines 86-91). -/
def AMBIG_ENTRY_PATTERNS : List Rx :=
  [.seq .wordB (.seq (strRx (str "entry")) (.seq (.cls isDashSpace)
     (.seq (strRx (str "level")) .wordB))),
   wordRx "junior",
   wordRx "graduate",
   .seq .wordB (.seq (.lit '0') (.seq (.opt (.cls isDashSpace))
     (.seq (.lit '2') yearsSfx))),
   .seq .wordB (.seq (.lit '1') (.seq (.opt (.cls isDashSpace))
     (.seq (.lit '2') yearsSfx))),
   wordRx "trainee",
   .seq .wordB (.seq (strRx (str "intern"))
     (.seq (.opt (strRx (str "ship"))) .wordB))]

/-- `r"(?i)\benglish\b"` (keyword_filter.py line 96). -/
def ENGLISH_RX : Rx := wordRx "english"

/- ------------------------------------------------------------------ -/
/- Keyword classifier (filters/keyword_filter.py)                      -/
/- ------------------------------------------------------------------ -/

/-- The optional text fields of a job dict that `keyword_filter` reads;
`none` models an absent key or `None` value (`job.get(...) or ""` then
yields the empty string). -/
structure Job where
  title : Option Str
  description : Option Str
  qualifications : Option Str
  experience_level : Option Str
  language_requirements : Option Str
  location_canton : Option Str
  location_city : Option Str

/-- Association-list lookup modelling `dict.get` on `ROMANDIE_CITIES`. -/
def lookupA : List (Str × Str) → Str → Option Str
  | [], _ => none
  | (k, v) :: rest, key => if key = k then some v else lookupA rest key

/-- `_resolve_canton` (keyword_filter.py lines 38-44): a truthy
`location_canton` wins, else the city table decides; the leading underscore
of the source name is dropped. -/
def resolve_canton (j : Job) : Option Str :=
  let canton := j.location_canton.getD []
  if canton.isEmpty then lookupA ROMANDIE_CITIES (j.location_city.getD [])
  else some canton

/-- List prefix test (worker for Python's substring operator `in`). -/
def isPrefL : Str → Str → Bool
  | [], _ => true
  | a :: as2, b :: bs => a == b && isPrefL as2 bs
  | _, _ => false

/-- Python's substring operator `kw in combined`. -/
def isSubL (n : Str) : Str → Bool
  | [] => n.isEmpty
  | b :: bs => isPrefL n (b :: bs) || isSubL n bs

/-- `_has_discipline_keyword` (keyword_filter.py lines 28-35); the leading
underscore of the source name is dropped. -/
def has_discipline_keyword (title description : Str) : Bool :=
  let combined := lowerStr (title ++ ' ' :: description)
  TARGET_KEYWORDS.any (fun kws =>
    kws.any (fun kw => isSubL (lowerStr kw) combined))

/-- `_MIN_DESCRIPTION_LENGTH` (keyword_filter.py line 17). -/
def MIN_DESCRIPTION_LENGTH : Nat := 50

/-- Checks 2-5 and the ambiguity sub-checks of `keyword_filter`
(keyword_filter.py lines 64-99), split out so that the geography check's
pass-through behaviour can be stated. -/
def afterGeo (j : Job) : Str × Str :=
  let title := j.title.getD []
  let description := j.description.getD []
  let qualifications := j.qualifications.getD []
  let experience_level := j.experience_level.getD []
  let text_blob := description ++ ' ' :: qualifications
  if matchesAny LANGUAGE_EXCLUDE_PATTERNS text_blob then
    (str "rejected", str "language requirement detected")
  else if matchesAny SENIOR_EXCLUDE_PATTERNS
      (title ++ ' ' :: (text_blob ++ ' ' :: experience_level)) then
    (str "rejected", str "not entry-level (senior/experienced)")
  else if matchesAny ENROLLMENT_EXCLUDE_PATTERNS text_blob then
    (str "rejected", str "requires current enrollment")
  else if !(has_discipline_keyword title description) then
    (str "rejected", str "no matching discipline keyword")
  else if description.length < MIN_DESCRIPTION_LENGTH then
    (str "ambiguous", str "description too short or missing")
  else if experience_level.isEmpty &&
      !(matchesAny AMBIG_ENTRY_PATTERNS text_blob) then
    (str "ambiguous", str "experience level unclear")
  else if (j.language_requirements.getD []).isEmpty &&
      !(searchCI ENGLISH_RX text_blob) then
    (str "ambiguous", str "language requirement unclear")
  else (str "passed", str "all keyword checks passed")

/-- `keyword_filter` (keyword_filter.py lines 47-99): the geography check,
then the remaining checks of `afterGeo`. -/
def keyword_filter (j : Job) : Str × Str :=
  let canton := (resolve_canton j).getD []
  if !canton.isEmpty && !(ROMANDIE_CANTONS.contains canton) then
    (str "rejected", str "location not in Romandie (canton=" ++ canton ++
      str ")")
  else afterGeo j

/- ------------------------------------------------------------------ -/
/- Classifier status helpers                                           -/
/- ------------------------------------------------------------------ -/

theorem afterGeo_status (j : Job) :
    (afterGeo j).1 = str "passed" ∨ (afterGeo j).1 = str "rejected" ∨
    (afterGeo j).1 = str "ambiguous" := by
  simp only [afterGeo]
  repeat' split
  all_goals simp

theorem keyword_filter_status (j : Job) :
    (keyword_filter j).1 = str "passed" ∨
    (keyword_filter j).1 = str "rejected" ∨
    (keyword_filter j).1 = str "ambiguous" := by
  simp only [keyword_filter]
  split
  · simp
  · exact afterGeo_status j

/- ------------------------------------------------------------------ -/
/- Claims C4, C5, C6                                                   -/
/- ------------------------------------------------------------------ -/

/-- C4: when the geography check fails (a canton is resolved, is truthy, and
is outside the six Romandie codes) and the language check would also fail,
`keyword_filter` reports the geography rejection — geography is evaluated
before language, so the first failing check determines the result. -/
theorem C4_geography_before_language (j : Job) (c : Str)
    (hres : resolve_canton j = some c) (hne : c.isEmpty = false)
    (hout : ROMANDIE_CANTONS.contains c = false)
    (hlang : matchesAny LANGUAGE_EXCLUDE_PATTERNS
      ((j.description.getD []) ++ ' ' :: (j.qualifications.getD [])) = true) :
    keyword_filter j =
      (str "rejected",
        str "location not in Romandie (canton=" ++ c ++ str ")") := by
  simp only [keyword_filter, hres, Option.getD_some]
  rw [hne, hout]
  simp

/-- C4 witness: a job in canton ZH whose description also carries a mandatory
German marker is rejected with the Romandie reason. -/
theorem C4_witness :
    matchesAny LANGUAGE_EXCLUDE_PATTERNS
      (((Job.mk none (some (str "deutsch")) none none none
          (some (str "ZH")) none).description.getD []) ++ ' ' ::
        ((Job.mk none (some (str "deutsch")) none none none
          (some (str "ZH")) none).qualifications.getD [])) = true ∧
    keyword_filter (Job.mk none (some (str "deutsch")) none none none
        (some (str "ZH")) none) =
      (str "rejected",
        str "location not in Romandie (canton=" ++ str "ZH" ++ str ")") :=
  ⟨by decide,
   C4_geography_before_language
     (Job.mk none (some (str "deutsch")) none none none (some (str "ZH")) none)
     (str "ZH") (by decide) (by decide) (by decide) (by decide)⟩

/-- C5: when no canton can be resolved — `location_canton` empty or absent
and `location_city` not a key of the city table — the geography check cannot
reject: `keyword_filter` returns exactly the result of the remaining checks
(`afterGeo`: language, seniority, enrollment, discipline, ambiguity). -/
theorem C5_geography_nonblocking (j : Job)
    (hc : (j.location_canton.getD []).isEmpty = true)
    (hcity : lookupA ROMANDIE_CITIES (j.location_city.getD []) = none) :
    keyword_filter j = afterGeo j := by
  have hres : resolve_canton j = none := by
    simp only [resolve_canton]
    rw [if_pos hc]
    exact hcity
  simp [keyword_filter, hres]

/-- C5 witness: an unknown city with no canton falls through to the
remaining checks. -/
theorem C5_witness :
    lookupA ROMANDIE_CITIES
      ((Job.mk (some (str "x")) none none none none none
          (some (str "Zurich"))).location_city.getD []) = none ∧
    keyword_filter
        (Job.mk (some (str "x")) none none none none none
          (some (str "Zurich"))) =
      afterGeo
        (Job.mk (some (str "x")) none none none none none
          (some (str "Zurich"))) :=
  ⟨by decide,
   C5_geography_nonblocking
     (Job.mk (some (str "x")) none none none none none (some (str "Zurich")))
     (by decide) (by decide)⟩

/-- C6: `keyword_filter` is total over job records with any combination of
present, empty, or absent optional fields — missing fields are read back as
empty strings — and always returns exactly one (status, reason) pair whose
status is `passed`, `rejected`, or `ambiguous`. -/
theorem C6_classifier_totality (j : Job) :
    (keyword_filter j).1 = str "passed" ∨
    (keyword_filter j).1 = str "rejected" ∨
    (keyword_filter j).1 = str "ambiguous" :=
  keyword_filter_status j

/- ------------------------------------------------------------------ -/
/- LLM fallback classifier (filters/llm_filter.py)                     -/
/- ------------------------------------------------------------------ -/

/-- A parsed JSON value (`json.loads` result); numbers are modelled as
integers, which covers every value the classifier logic distinguishes. -/
inductive JValue where
  | null : JValue
  | jbool : Bool → JValue
  | jnum : Int → JValue
  | jstr : Str → JValue
  | jarr : List JValue → JValue
  | jobj : List (Str × JValue) → JValue

/-- `dict.get` on a parsed JSON object. -/
def jlookup : List (Str × JValue) → Str → Option JValue
  | [], _ => none
  | (k, v) :: rest, key => if k = key then some v else jlookup rest key

/-- Python truthiness of `result.get("pass")`: `None` (absent key), `False`,
`0`, the empty string, and empty containers are falsy. -/
def jtruthy : Option JValue → Bool
  | none => false
  | some .null => false
  | some (.jbool b) => b
  | some (.jnum n) => !(n == 0)
  | some (.jstr s) => !s.isEmpty
  | some (.jarr xs) => !xs.isEmpty
  | some (.jobj kvs) => !kvs.isEmpty

/-- Python type name of a JSON value, for the attribute-error message. -/
def pyTypeName : JValue → Str
  | .null => str "NoneType"
  | .jbool _ => str "bool"
  | .jnum _ => str "int"
  | .jstr _ => str "str"
  | .jarr _ => str "list"
  | .jobj _ => str "dict"

mutual
/-- A Python-style rendering of a JSON value, used where the source would
carry the raw object into the reason slot of the returned tuple. -/
def pyShow : JValue → Str
  | .null => str "None"
  | .jbool true => str "True"
  | .jbool false => str "False"
  | .jnum n => str (toString n)
  | .jstr s => s
  | .jarr xs => '[' :: pyShowList xs ++ [']']
  | .jobj kvs => Char.ofNat 123 :: pyShowObj kvs ++ [Char.ofNat 125]

/-- Render a JSON array's elements, comma separated. -/
def pyShowList : List JValue → Str
  | [] => []
  | [v] => pyShow v
  | v :: rest => pyShow v ++ ',' :: ' ' :: pyShowList rest

/-- Render a JSON object's entries, comma separated. -/
def pyShowObj : List (Str × JValue) → Str
  | [] => []
  | [(k, v)] => k ++ ':' :: ' ' :: pyShow v
  | (k, v) :: rest => k ++ ':' :: ' ' :: pyShow v ++ ',' :: ' ' :: pyShowObj rest
end

/-- The outcome of the external call plus JSON parse, which happen at the
module's boundary (`anthropic` client and `json.loads`): the call raised
(any exception — network, service, or the later attribute access on a
non-dict is handled separately), the response was not valid JSON
(`json.JSONDecodeError` with its message), or it parsed to a value. -/
inductive CallOutcome where
  | failure : Str → CallOutcome
  | invalidJson : Str → CallOutcome
  | parsed : JValue → CallOutcome

/-- `llm_filter` (llm_filter.py lines 37-70).  `apiKey` is the module's
`CLAUDE_API_KEY` (environment-supplied).  A parsed non-object response makes
`result.get` raise `AttributeError`, which the generic `except Exception`
turns into the "LLM filter error" ambiguous result — the message text is the
CPython attribute-error phrasing. -/
def llm_filter (apiKey : Str) (outcome : CallOutcome) : Str × Str :=
  if apiKey.isEmpty then
    (str "ambiguous", str "LLM filter skipped (no API key)")
  else
    match outcome with
    | .failure e => (str "ambiguous", str "LLM filter error: " ++ e)
    | .invalidJson e =>
      (str "ambiguous", str "LLM response not valid JSON: " ++ e)
    | .parsed j =>
      match j with
      | .jobj kvs =>
        if jtruthy (jlookup kvs (str "pass")) then
          (str "passed",
            (jlookup kvs (str "reason")).elim (str "LLM approved") pyShow)
        else
          (str "rejected",
            (jlookup kvs (str "reason")).elim (str "LLM rejected") pyShow)
      | other =>
        (str "ambiguous",
          str "LLM filter error: " ++
            (Char.ofNat 39 :: pyTypeName other ++ Char.ofNat 39 ::
              str " object has no attribute " ++ Char.ofNat 39 ::
              str "get" ++ [Char.ofNat 39]))

/- ------------------------------------------------------------------ -/
/- Claims C7, C10                                                      -/
/- ------------------------------------------------------------------ -/

/-- C7: `llm_filter` is total (it never propagates an exception — every
outcome yields one of the three statuses), and each failure path degrades to
`ambiguous`: with no API key configured it skips the external call (the
result does not depend on the outcome at all) with the skip reason; an
unparsable response yields `ambiguous` with the parse-failure reason; a
failing call yields `ambiguous` with the call-error reason. -/
theorem C7_llm_failure_paths (key : Str) (o : CallOutcome) :
    (key.isEmpty = true →
      llm_filter key o =
        (str "ambiguous", str "LLM filter skipped (no API key)")) ∧
    (∀ e : Str, key.isEmpty = false → o = .invalidJson e →
      llm_filter key o =
        (str "ambiguous", str "LLM response not valid JSON: " ++ e)) ∧
    (∀ e : Str, key.isEmpty = false → o = .failure e →
      llm_filter key o = (str "ambiguous", str "LLM filter error: " ++ e)) ∧
    ((llm_filter key o).1 = str "passed" ∨
      (llm_filter key o).1 = str "rejected" ∨
      (llm_filter key o).1 = str "ambiguous") := by
  refine ⟨?_, ?_, ?_, ?_⟩
  · intro hk
    simp [llm_filter, hk]
  · intro e hk ho
    subst ho
    simp [llm_filter, hk]
  · intro e hk ho
    subst ho
    simp [llm_filter, hk]
  · by_cases hk : key.isEmpty = true
    · simp [llm_filter, hk]
    · have hk' : key.isEmpty = false := by simpa using hk
      rcases o with e | e | j
      · simp [llm_filter, hk']
      · simp [llm_filter, hk']
      · rcases j with _ | b | n | s | xs | kvs <;> simp [llm_filter, hk'] <;>
          split <;> simp

/-- C7 witness: the theorem applied with no key (any outcome), and with a
key on an unparsable response. -/
theorem C7_witness :
    (str "").isEmpty = true ∧
    llm_filter (str "") (.failure (str "boom")) =
      (str "ambiguous", str "LLM filter skipped (no API key)") ∧
    (str "k").isEmpty = false ∧
    llm_filter (str "k") (.invalidJson (str "bad")) =
      (str "ambiguous", str "LLM response not valid JSON: " ++ str "bad") :=
  ⟨by decide,
   (C7_llm_failure_paths (str "") (.failure (str "boom"))).1 (by decide),
   by decide,
   (C7_llm_failure_paths (str "k") (.invalidJson (str "bad"))).2.1
     (str "bad") (by decide) rfl⟩

/-- C10 counterexample: the response text `"[]"` parses as valid JSON and
has no `"pass"` key, yet `llm_filter` returns `ambiguous` (the list's
missing `.get` raises `AttributeError`, caught by the generic handler), not
`rejected` as the claim requires. -/
theorem C10_counterexample :
    (llm_filter (str "k") (.parsed (.jarr []))).1 = str "ambiguous" ∧
    ¬((llm_filter (str "k") (.parsed (.jarr []))).1 = str "rejected") := by
  constructor
  · decide
  · decide

/-- C10 (amended): when the external service's response parses as a JSON
object, a missing `"pass"` key or a falsy `"pass"` value (false, null, 0,
empty string, empty container) yields `rejected` with the response's reason
or the default, and only a truthy `"pass"` yields `passed`; a response that
is valid JSON but not an object instead takes the generic error path and
yields `ambiguous`. -/
theorem C10_llm_reject_amended (key : Str) (kvs : List (Str × JValue))
    (hk : key.isEmpty = false) :
    (jtruthy (jlookup kvs (str "pass")) = false →
      llm_filter key (.parsed (.jobj kvs)) =
        (str "rejected",
          (jlookup kvs (str "reason")).elim (str "LLM rejected") pyShow)) ∧
    (jtruthy (jlookup kvs (str "pass")) = true →
      llm_filter key (.parsed (.jobj kvs)) =
        (str "passed",
          (jlookup kvs (str "reason")).elim (str "LLM approved") pyShow)) ∧
    (∀ v : JValue, (v matches .jobj _) = false →
      (llm_filter key (.parsed v)).1 = str "ambiguous") := by
  refine ⟨?_, ?_, ?_⟩
  · intro h
    simp [llm_filter, hk, h]
  · intro h
    simp [llm_filter, hk, h]
  · intro v hv
    rcases v with _ | b | n | s | xs | kvs2 <;> simp [llm_filter, hk] <;>
      simp at hv

/-- C10 witness: a JSON object without a `"pass"` key is rejected with the
response's reason string. -/
theorem C10_witness :
    jtruthy (jlookup [(str "reason", JValue.jstr (str "why"))]
      (str "pass")) = false ∧
    llm_filter (str "k")
        (.parsed (.jobj [(str "reason", JValue.jstr (str "why"))])) =
      (str "rejected",
        (jlookup [(str "reason", JValue.jstr (str "why"))]
          (str "reason")).elim (str "LLM rejected") pyShow) :=
  ⟨by decide,
   (C10_llm_reject_amended (str "k")
     [(str "reason", JValue.jstr (str "why"))] (by decide)).1 (by decide)⟩

/- ------------------------------------------------------------------ -/
/- Filter pipeline (filters/pipeline.py)                               -/
/- ------------------------------------------------------------------ -/

/-- The summary dict, as an insertion-ordered association list. -/
abbrev Summary := List (Str × Nat)

/-- `summary[status] = summary.get(status, 0) + 1`: bump the first entry
with the key, or append a fresh entry at the end. -/
def bump : Summary → Str → Summary
  | [], k => [(k, 1)]
  | (k2, v) :: rest, k =>
    if k = k2 then (k2, v + 1) :: rest else (k2, v) :: bump rest k

/-- `summary.get(key, 0)`. -/
def lookupD : Summary → Str → Nat
  | [], _ => 0
  | (k2, v) :: rest, k => if k = k2 then v else lookupD rest k

/-- The pipeline's initial summary (pipeline.py line 24). -/
def initSummary : Summary :=
  [(str "passed", 0), (str "rejected", 0), (str "ambiguous", 0)]

/-- Worker for `run_filters`: walk the snapshot of unprocessed jobs,
classifying, writing back, optionally escalating, and tallying.  A job is a
(row id, record) pair; `llmF` is the LLM classifier applied per job (its
result depends on the external service); write-backs accumulate in order. -/
def runFiltersGo (useLlm : Bool) (llmF : Job → Str × Str) :
    List (Nat × Job) → Summary → List (Nat × Str × Str) →
    Summary × List (Nat × Str × Str)
  | [], s, w => (s, w)
  | (i, j) :: rest, s, w =>
    let kr := keyword_filter j
    let w1 := w ++ [(i, kr.1, kr.2)]
    if kr.1 = str "ambiguous" ∧ useLlm = true then
      let lr := llmF j
      runFiltersGo useLlm llmF rest (bump s lr.1) (w1 ++ [(i, lr.1, lr.2)])
    else
      runFiltersGo useLlm llmF rest (bump s kr.1) w1

/-- `run_filters` (pipeline.py lines 14-46): returns the summary and the
ordered list of `update_filter_status` write-backs. -/
def run_filters (jobs : List (Nat × Job)) (useLlm : Bool)
    (llmF : Job → Str × Str) : Summary × List (Nat × Str × Str) :=
  runFiltersGo useLlm llmF jobs initSummary []

/-- A job's final status: the keyword status, overridden by the LLM result
when the keyword result is ambiguous and the LLM stage is enabled. -/
def finalStatus (useLlm : Bool) (llmF : Job → Str × Str) (j : Job) : Str :=
  if (keyword_filter j).1 = str "ambiguous" ∧ useLlm = true then (llmF j).1
  else (keyword_filter j).1

/-- A job's write-back entries: the keyword write, then the LLM write when
the LLM stage runs. -/
def writesOf (useLlm : Bool) (llmF : Job → Str × Str) (ij : Nat × Job) :
    List (Nat × Str × Str) :=
  (ij.1, (keyword_filter ij.2).1, (keyword_filter ij.2).2) ::
    (if (keyword_filter ij.2).1 = str "ambiguous" ∧ useLlm = true then
      [(ij.1, (llmF ij.2).1, (llmF ij.2).2)] else [])

/- ------------------------------------------------------------------ -/
/- Pipeline lemmas                                                     -/
/- ------------------------------------------------------------------ -/

theorem runFiltersGo_spec (useLlm : Bool) (llmF : Job → Str × Str) :
    ∀ (jobs : List (Nat × Job)) (s : Summary) (w : List (Nat × Str × Str)),
    runFiltersGo useLlm llmF jobs s w =
      (jobs.foldl (fun acc ij => bump acc (finalStatus useLlm llmF ij.2)) s,
        w ++ jobs.flatMap (writesOf useLlm llmF)) := by
  intro jobs
  induction jobs with
  | nil => intro s w; simp [runFiltersGo]
  | cons ij rest ih =>
    intro s w
    obtain ⟨i, j⟩ := ij
    by_cases hc : (keyword_filter j).1 = str "ambiguous" ∧ useLlm = true
    · simp only [runFiltersGo]
      rw [if_pos hc, ih]
      simp [finalStatus, writesOf, hc, List.append_assoc]
    · simp only [runFiltersGo]
      rw [if_neg hc, ih]
      simp [finalStatus, writesOf, hc, List.append_assoc]

theorem lookupD_bump : ∀ (s : Summary) (k k2 : Str),
    lookupD (bump s k) k2 = lookupD s k2 + (if k2 = k then 1 else 0) := by
  intro s
  induction s with
  | nil =>
    intro k k2
    by_cases h : k2 = k <;> simp [bump, lookupD, h]
  | cons p rest ih =>
    intro k k2
    obtain ⟨k3, v⟩ := p
    by_cases h1 : k = k3
    · subst h1
      by_cases h2 : k2 = k <;> simp [bump, lookupD, h2]
    · by_cases h2 : k2 = k3
      · subst h2
        have : ¬(k2 = k) := fun h => h1 (h ▸ rfl)
        simp [bump, lookupD, h1, this]
      · simp [bump, lookupD, h1, h2, ih]

/-- The three counters the pipeline reports. -/
def total3 (s : Summary) : Nat :=
  lookupD s (str "passed") + lookupD s (str "rejected") +
    lookupD s (str "ambiguous")

theorem total3_bump {k : Str} (s : Summary)
    (hk : k = str "passed" ∨ k = str "rejected" ∨ k = str "ambiguous") :
    total3 (bump s k) = total3 s + 1 := by
  have d1 : ¬(str "passed" = str "rejected") := by decide
  have d2 : ¬(str "passed" = str "ambiguous") := by decide
  have d3 : ¬(str "rejected" = str "passed") := by decide
  have d4 : ¬(str "rejected" = str "ambiguous") := by decide
  have d5 : ¬(str "ambiguous" = str "passed") := by decide
  have d6 : ¬(str "ambiguous" = str "rejected") := by decide
  rcases hk with h | h | h <;> subst h <;>
    simp [total3, lookupD_bump, d1, d2, d3, d4, d5, d6] <;> omega

theorem total3_foldl : ∀ (xs : List Str) (s : Summary),
    (∀ k ∈ xs, k = str "passed" ∨ k = str "rejected" ∨
      k = str "ambiguous") →
    total3 (xs.foldl bump s) = total3 s + xs.length := by
  intro xs
  induction xs with
  | nil => intro s _; simp
  | cons x rest ih =>
    intro s hall
    simp only [List.foldl_cons, List.length_cons]
    rw [ih (bump s x) (fun k hk => hall k (by simp [hk]))]
    rw [total3_bump s (hall x (by simp))]
    omega

theorem lookupD_foldl : ∀ (xs : List Str) (s : Summary) (k : Str),
    lookupD (xs.foldl bump s) k =
      lookupD s k + (xs.filter (fun x => x = k)).length := by
  intro xs
  induction xs with
  | nil => intro s k; simp
  | cons x rest ih =>
    intro s k
    simp only [List.foldl_cons, List.filter_cons]
    rw [ih (bump s x) k, lookupD_bump]
    by_cases h : x = k
    · subst h
      simp
      omega
    · have h2 : ¬(k = x) := fun hh => h (hh ▸ rfl)
      simp [h, h2]

theorem flatMap_singleton_map {α β : Type} (f : α → β) (l : List α) :
    l.flatMap (fun x => [f x]) = l.map f := by
  induction l with
  | nil => rfl
  | cons x xs ih => simp only [List.flatMap_cons, List.map_cons,
      List.singleton_append, ih]

/- ------------------------------------------------------------------ -/
/- Claim C8                                                            -/
/- ------------------------------------------------------------------ -/

set_option maxHeartbeats 1000000 in
/-- C8: over a snapshot of unprocessed jobs, `run_filters` tallies each job
exactly once under its final status — the keyword result, overridden by the
LLM result when the keyword result is ambiguous and `use_llm` is true — so
the reported passed/rejected/ambiguous counts sum to the number of jobs;
and with `use_llm` false the LLM classifier is never invoked (the result
does not depend on it at all), every job is persisted exactly once with its
keyword status, and every keyword-ambiguous job is counted as ambiguous. -/
theorem C8_pipeline_counts (jobs : List (Nat × Job)) (useLlm : Bool)
    (llmF : Job → Str × Str)
    (hllm : useLlm = true → ∀ ij ∈ jobs,
      (llmF ij.2).1 = str "passed" ∨ (llmF ij.2).1 = str "rejected" ∨
      (llmF ij.2).1 = str "ambiguous") :
    (lookupD (run_filters jobs useLlm llmF).1 (str "passed") +
      lookupD (run_filters jobs useLlm llmF).1 (str "rejected") +
      lookupD (run_filters jobs useLlm llmF).1 (str "ambiguous") =
      jobs.length) ∧
    (useLlm = false →
      (∀ llmF2 : Job → Str × Str,
        run_filters jobs useLlm llmF2 = run_filters jobs useLlm llmF) ∧
      (run_filters jobs useLlm llmF).2 =
        jobs.map (fun ij =>
          (ij.1, (keyword_filter ij.2).1, (keyword_filter ij.2).2)) ∧
      lookupD (run_filters jobs useLlm llmF).1 (str "ambiguous") =
        (jobs.filter
          (fun ij => (keyword_filter ij.2).1 = str "ambiguous")).length) := by
  have hstat : ∀ k ∈ jobs.map (fun ij => finalStatus useLlm llmF ij.2),
      k = str "passed" ∨ k = str "rejected" ∨ k = str "ambiguous" := by
    intro k hk
    simp only [List.mem_map] at hk
    obtain ⟨ij, hij, hk⟩ := hk
    subst hk
    unfold finalStatus
    split
    · rename_i hcond
      exact hllm hcond.2 ij hij
    · exact keyword_filter_status ij.2
  have hsummary : (run_filters jobs useLlm llmF).1 =
      (jobs.map (fun ij => finalStatus useLlm llmF ij.2)).foldl bump
        initSummary := by
    rw [run_filters, runFiltersGo_spec, List.foldl_map]
  refine ⟨?_, ?_⟩
  · rw [hsummary]
    have h2 := total3_foldl (jobs.map (fun ij => finalStatus useLlm llmF ij.2))
      initSummary hstat
    rw [show total3 initSummary = 0 from by decide] at h2
    unfold total3 at h2
    rw [h2]
    simp
  · intro hfalse
    subst hfalse
    have hfs : ∀ (g : Job → Str × Str) (j : Job),
        finalStatus false g j = (keyword_filter j).1 := by
      intro g j
      unfold finalStatus
      rw [if_neg]
      rintro ⟨_, h⟩
      exact absurd h (by simp)
    have hwo : ∀ (g : Job → Str × Str) (ij : Nat × Job), writesOf false g ij =
        [(ij.1, (keyword_filter ij.2).1, (keyword_filter ij.2).2)] := by
      intro g ij
      unfold writesOf
      rw [if_neg]
      · rintro ⟨_, h⟩
        exact absurd h (by simp)
    refine ⟨?_, ?_, ?_⟩
    · intro llmF2
      rw [run_filters, run_filters, runFiltersGo_spec, runFiltersGo_spec]
      have e1 : (fun (acc : Summary) (ij : Nat × Job) =>
          bump acc (finalStatus false llmF2 ij.2)) =
          (fun acc ij => bump acc (finalStatus false llmF ij.2)) := by
        funext acc ij
        rw [hfs, hfs]
      have e2 : writesOf false llmF2 = writesOf false llmF := by
        funext ij
        rw [hwo, hwo]
      rw [e1, e2]
    · rw [run_filters, runFiltersGo_spec]
      simp only [List.nil_append]
      have e2 : writesOf false llmF = (fun ij =>
          [(ij.1, (keyword_filter ij.2).1, (keyword_filter ij.2).2)]) := by
        funext ij
        rw [hwo]
      rw [e2]
      exact flatMap_singleton_map _ jobs
    · rw [hsummary, lookupD_foldl,
        show lookupD initSummary (str "ambiguous") = 0 from by decide]
      simp only [Nat.zero_add]
      rw [List.filter_map]
      rw [List.length_map]
      congr 1
      apply List.filter_congr
      intro ij _
      simp only [Function.comp]
      rw [decide_eq_decide, hfs]

/-- C8 witness: a one-job backlog with the LLM stage enabled and a concrete
LLM classifier; the three tallies sum to the backlog size. -/
theorem C8_witness :
    (true = true → ∀ ij ∈ [((1 : Nat),
        (Job.mk none none none none none none none))],
      (((fun (_ : Job) => (str "passed", str "ok")) ij.2).1 = str "passed" ∨
        ((fun (_ : Job) => (str "passed", str "ok")) ij.2).1 =
          str "rejected" ∨
        ((fun (_ : Job) => (str "passed", str "ok")) ij.2).1 =
          str "ambiguous")) ∧
    lookupD (run_filters [(1, Job.mk none none none none none none none)]
        true (fun _ => (str "passed", str "ok"))).1 (str "passed") +
      lookupD (run_filters [(1, Job.mk none none none none none none none)]
        true (fun _ => (str "passed", str "ok"))).1 (str "rejected") +
      lookupD (run_filters [(1, Job.mk none none none none none none none)]
        true (fun _ => (str "passed", str "ok"))).1 (str "ambiguous") = 1 :=
  ⟨by decide,
   (C8_pipeline_counts [(1, Job.mk none none none none none none none)] true
     (fun _ => (str "passed", str "ok")) (by decide)).1⟩

end JobScraper
